import Mathlib

/-!
Shallow embedding of the solr-pokedex repository (a PokeAPI → Solr ingestion
pipeline plus a Flask search frontend), for checking its natural-language
specification.  Text is modelled as `List Char`; Python dictionaries become
structures; optional JSON sub-objects become `Option`; the Solr engine is
modelled as an oracle function; fallible probe calls return `Except`.
-/

/-- ASCII whitespace set matched by the regex class in
`re.sub(r'[\n\f\r\t]+', ' ', text)` of `DataProcessor.clean_text`
(src/data_processor.py). -/
def isCtrlWs (c : Char) : Bool :=
  c = '\n' || c = '\x0c' || c = '\r' || c = '\t'

/-- ASCII whitespace set matched by Python's `\s` regex class and by
`str.strip` (space, tab, newline, carriage return, form feed, vertical tab). -/
def isPyWs (c : Char) : Bool :=
  c = ' ' || c = '\t' || c = '\n' || c = '\r' || c = '\x0c' || c = '\x0b'

/-- Worker for `re.sub(r'[X]+', ' ', text)`: the flag records whether we are
inside a run of class characters (in which case further class characters
emit nothing; the single space was emitted at the start of the run). -/
def squashGo (p : Char → Bool) : Bool → List Char → List Char
  | _, [] => []
  | inRun, c :: cs =>
    if p c then (if inRun then squashGo p true cs else ' ' :: squashGo p true cs)
    else c :: squashGo p false cs

/-- `re.sub(r'[X]+', ' ', text)` for a character class `p`: every maximal run
of characters satisfying `p` is replaced by a single space. -/
def squashRuns (p : Char → Bool) (l : List Char) : List Char :=
  squashGo p false l

/-- Python `str.lstrip()` on the ASCII whitespace set. -/
def trimL (l : List Char) : List Char := l.dropWhile isPyWs

/-- Python `str.rstrip()` on the ASCII whitespace set (drops trailing
whitespace). -/
def trimR : List Char → List Char
  | [] => []
  | c :: cs =>
    match trimR cs with
    | [] => if isPyWs c then [] else [c]
    | d :: ds => c :: d :: ds

/-- Python `str.strip()` on the ASCII whitespace set. -/
def pyStrip (l : List Char) : List Char := trimR (trimL l)

/-- `DataProcessor.clean_text` (src/data_processor.py lines 15-35):
`if not text: return ""`, then replace runs of `[\n\f\r\t]` by one space,
then collapse runs of `\s` to one space, then strip both ends. -/
def clean_text (text : List Char) : List Char :=
  if text = [] then []
  else pyStrip (squashRuns isPyWs (squashRuns isCtrlWs text))

/-- No two adjacent whitespace characters occur in the list. -/
def noWsRun : List Char → Bool
  | [] => true
  | [_] => true
  | a :: b :: rest => (!(isPyWs a && isPyWs b)) && noWsRun (b :: rest)

/-- Every whitespace character in the list is a plain space. -/
def wsOnlySpace (l : List Char) : Bool :=
  l.all (fun c => !isPyWs c || c = ' ')

-- `squashGo` is the identity on lists with no character of the class.
theorem squashGo_eq_self (p : Char → Bool) (l : List Char) (b : Bool)
    (h : ∀ c ∈ l, p c = false) : squashGo p b l = l := by
  induction l generalizing b with
  | nil => rfl
  | cons c cs ih =>
    rw [squashGo, h c (List.mem_cons_self c cs)]
    simp only [if_neg Bool.false_ne_true]
    exact congrArg (c :: ·) (ih false fun d hd => h d (List.mem_cons_of_mem c hd))

-- Characters of `squashGo p b l` are spaces or characters of `l` outside `p`.
theorem mem_squashGo (p : Char → Bool) (l : List Char) (b : Bool) (c : Char)
    (hc : c ∈ squashGo p b l) : c = ' ' ∨ (c ∈ l ∧ p c = false) := by
  induction l generalizing b with
  | nil => simp [squashGo] at hc
  | cons x cs ih =>
    rw [squashGo] at hc
    by_cases hx : p x = true
    · rw [if_pos hx] at hc
      cases b with
      | true =>
        rcases ih true hc with h | ⟨hm, hp⟩
        · exact Or.inl h
        · exact Or.inr ⟨List.mem_cons_of_mem x hm, hp⟩
      | false =>
        rcases List.mem_cons.mp hc with h | h
        · exact Or.inl h
        · rcases ih true h with h' | ⟨hm, hp⟩
          · exact Or.inl h'
          · exact Or.inr ⟨List.mem_cons_of_mem x hm, hp⟩
    · rw [if_neg hx] at hc
      rcases List.mem_cons.mp hc with h | h
      · subst h
        exact Or.inr ⟨List.mem_cons_self c cs, Bool.eq_false_iff.mpr hx⟩
      · rcases ih false h with h' | ⟨hm, hp⟩
        · exact Or.inl h'
        · exact Or.inr ⟨List.mem_cons_of_mem x hm, hp⟩

theorem noWsRun_cons (a : Char) (l : List Char)
    (h1 : ∀ c, l.head? = some c → ¬(isPyWs a = true ∧ isPyWs c = true))
    (h2 : noWsRun l = true) : noWsRun (a :: l) = true := by
  cases l with
  | nil => rfl
  | cons b rest =>
    rw [noWsRun, Bool.and_eq_true]
    refine ⟨?_, h2⟩
    have h := h1 b rfl
    cases hA : isPyWs a with
    | false => simp
    | true =>
      cases hB : isPyWs b with
      | false => simp
      | true => exact absurd ⟨hA, hB⟩ h

theorem noWsRun_tail (a : Char) (l : List Char)
    (h : noWsRun (a :: l) = true) : noWsRun l = true := by
  cases l with
  | nil => rfl
  | cons b rest =>
    rw [noWsRun, Bool.and_eq_true] at h
    exact h.2

-- Output of the whitespace-collapsing pass has no two adjacent whitespace
-- characters, and in in-run mode it starts with a non-whitespace character.
theorem squashGo_noWsRun (l : List Char) :
    (∀ b, noWsRun (squashGo isPyWs b l) = true) ∧
    (∀ c, (squashGo isPyWs true l).head? = some c → isPyWs c = false) := by
  induction l with
  | nil => exact ⟨fun _ => rfl, fun c h => by simp [squashGo] at h⟩
  | cons x cs ih =>
    constructor
    · intro b
      rw [squashGo]
      by_cases hx : isPyWs x = true
      · rw [if_pos hx]
        cases b with
        | true => exact ih.1 true
        | false =>
          refine noWsRun_cons ' ' _ ?_ (ih.1 true)
          intro c hc
          intro hcon
          rw [ih.2 c hc] at hcon
          exact Bool.false_ne_true hcon.2
      · rw [if_neg hx]
        refine noWsRun_cons x _ ?_ (ih.1 false)
        intro c _
        intro hcon
        rw [hcon.1] at hx
        exact hx rfl
    · intro c hc
      rw [squashGo] at hc
      by_cases hx : isPyWs x = true
      · rw [if_pos hx] at hc
        exact ih.2 c hc
      · rw [if_neg hx] at hc
        simp only [List.head?_cons, Option.some.injEq] at hc
        subst hc
        exact Bool.eq_false_iff.mpr hx

-- Fixed point: a list with no adjacent whitespace whose whitespace is all
-- plain spaces is unchanged by the whitespace-collapsing pass.
theorem squashGo_fix (l : List Char) (h1 : noWsRun l = true)
    (h2 : wsOnlySpace l = true) :
    squashGo isPyWs false l = l ∧
    ((∀ c, l.head? = some c → isPyWs c = false) → squashGo isPyWs true l = l) := by
  induction l with
  | nil => exact ⟨rfl, fun _ => rfl⟩
  | cons x cs ih =>
    have hcs1 : noWsRun cs = true := noWsRun_tail x cs h1
    have hcs2 : wsOnlySpace cs = true := by
      rw [wsOnlySpace, List.all_cons, Bool.and_eq_true] at h2
      exact h2.2
    have ihn := ih hcs1 hcs2
    constructor
    · rw [squashGo]
      by_cases hx : isPyWs x = true
      · rw [if_pos hx]
        have hxsp : x = ' ' := by
          rw [wsOnlySpace, List.all_cons, Bool.and_eq_true] at h2
          have := h2.1
          rw [hx] at this
          simpa using this
        have hhead : ∀ c, cs.head? = some c → isPyWs c = false := by
          intro c hc
          cases cs with
          | nil => simp at hc
          | cons d ds =>
            simp only [List.head?_cons, Option.some.injEq] at hc
            subst hc
            rw [noWsRun, Bool.and_eq_true] at h1
            have := h1.1
            rw [hx] at this
            simpa using this
        rw [ihn.2 hhead, hxsp]
        rfl
      · rw [if_neg hx, ihn.1]
    · intro hh
      rw [squashGo]
      have hx : ¬ isPyWs x = true := by
        have := hh x rfl
        exact Bool.eq_false_iff.mp this
      rw [if_neg hx, ihn.1]

theorem ctrlWs_pyWs (c : Char) (h : isCtrlWs c = true) : isPyWs c = true := by
  simp only [isCtrlWs, Bool.or_eq_true, decide_eq_true_eq] at h
  rcases h with ((h | h) | h) | h <;> subst h <;> decide

-- The whitespace-collapsing pass leaves only plain spaces as whitespace.
theorem wsOnlySpace_squashGo (b : Bool) (l : List Char) :
    wsOnlySpace (squashGo isPyWs b l) = true := by
  rw [wsOnlySpace, List.all_eq_true]
  intro c hc
  rcases mem_squashGo isPyWs l b c hc with h | ⟨_, hp⟩
  · subst h
    decide
  · simp [hp]

theorem wsOnlySpace_of_subset (l l' : List Char)
    (hs : ∀ c ∈ l', c ∈ l) (h : wsOnlySpace l = true) :
    wsOnlySpace l' = true := by
  rw [wsOnlySpace, List.all_eq_true] at h ⊢
  exact fun c hc => h c (hs c hc)

theorem mem_trimL (l : List Char) (c : Char) (hc : c ∈ trimL l) : c ∈ l := by
  induction l with
  | nil => simp [trimL] at hc
  | cons x xs ih =>
    rw [trimL, List.dropWhile_cons] at hc
    by_cases hx : isPyWs x = true
    · rw [if_pos hx] at hc
      exact List.mem_cons_of_mem x (ih hc)
    · rw [if_neg hx] at hc
      exact hc

theorem trimL_head (l : List Char) (c : Char)
    (hc : (trimL l).head? = some c) : isPyWs c = false := by
  induction l with
  | nil => simp [trimL] at hc
  | cons x xs ih =>
    rw [trimL, List.dropWhile_cons] at hc
    by_cases hx : isPyWs x = true
    · rw [if_pos hx] at hc
      exact ih hc
    · rw [if_neg hx] at hc
      simp only [List.head?_cons, Option.some.injEq] at hc
      subst hc
      exact Bool.eq_false_iff.mpr hx

theorem trimL_eq_self (l : List Char)
    (h : ∀ c, l.head? = some c → isPyWs c = false) : trimL l = l := by
  cases l with
  | nil => rfl
  | cons x xs =>
    rw [trimL, List.dropWhile_cons, if_neg]
    rw [h x rfl]
    exact Bool.false_ne_true

theorem noWsRun_trimL (l : List Char) (h : noWsRun l = true) :
    noWsRun (trimL l) = true := by
  induction l with
  | nil => exact h
  | cons x xs ih =>
    rw [trimL, List.dropWhile_cons]
    by_cases hx : isPyWs x = true
    · rw [if_pos hx]
      exact ih (noWsRun_tail x xs h)
    · rw [if_neg hx]
      exact h

theorem mem_trimR (l : List Char) (c : Char) (hc : c ∈ trimR l) : c ∈ l := by
  induction l with
  | nil => simp [trimR] at hc
  | cons x xs ih =>
    rw [trimR] at hc
    cases hr : trimR xs with
    | nil =>
      rw [hr] at hc
      by_cases hx : isPyWs x = true
      · rw [if_pos hx] at hc
        simp at hc
      · rw [if_neg hx] at hc
        simp only [List.mem_singleton] at hc
        subst hc
        exact List.mem_cons_self c xs
    | cons d ds =>
      rw [hr] at hc
      rcases List.mem_cons.mp hc with h | h
      · subst h
        exact List.mem_cons_self c xs
      · exact List.mem_cons_of_mem x (ih (hr ▸ h))

theorem trimR_head (x : Char) (xs : List Char) :
    trimR (x :: xs) = [] ∨ (trimR (x :: xs)).head? = some x := by
  rw [trimR]
  cases trimR xs with
  | nil =>
    by_cases hx : isPyWs x = true
    · rw [if_pos hx]
      exact Or.inl rfl
    · rw [if_neg hx]
      exact Or.inr rfl
  | cons d ds => exact Or.inr rfl

theorem noWsRun_trimR (l : List Char) (h : noWsRun l = true) :
    noWsRun (trimR l) = true := by
  induction l with
  | nil => exact h
  | cons x xs ih =>
    have hxs := ih (noWsRun_tail x xs h)
    rw [trimR]
    cases hr : trimR xs with
    | nil =>
      by_cases hx : isPyWs x = true
      · rw [if_pos hx]; rfl
      · rw [if_neg hx]; rfl
    | cons d ds =>
      refine noWsRun_cons x (d :: ds) ?_ (hr ▸ hxs)
      intro c hc
      simp only [List.head?_cons, Option.some.injEq] at hc
      subst hc
      cases xs with
      | nil => simp [trimR] at hr
      | cons y ys =>
        rcases trimR_head y ys with h0 | h0
        · rw [h0] at hr
          exact absurd hr (by simp)
        · rw [hr] at h0
          simp only [List.head?_cons, Option.some.injEq] at h0
          subst h0
          rw [noWsRun, Bool.and_eq_true] at h
          intro hcon
          have := h.1
          rw [hcon.1, hcon.2] at this
          simp at this

theorem trimR_idem (l : List Char) : trimR (trimR l) = trimR l := by
  induction l with
  | nil => rfl
  | cons x xs ih =>
    rw [trimR]
    cases hr : trimR xs with
    | nil =>
      by_cases hx : isPyWs x = true
      · rw [if_pos hx]; rfl
      · rw [if_neg hx]
        rw [trimR]
        simp only [trimR]
        rw [if_neg hx]
    | cons d ds =>
      rw [trimR]
      have : trimR (d :: ds) = d :: ds := by
        rw [← hr, ih, hr]
      rw [this]

-- Structural invariants of `clean_text` output: no adjacent whitespace, all
-- whitespace is a plain space, no leading whitespace, right-trim fixed point.
theorem clean_text_inv (x : List Char) :
    noWsRun (clean_text x) = true ∧ wsOnlySpace (clean_text x) = true ∧
    (∀ c, (clean_text x).head? = some c → isPyWs c = false) ∧
    trimR (clean_text x) = clean_text x := by
  by_cases hx : x = []
  · subst hx
    refine ⟨rfl, rfl, ?_, rfl⟩
    intro c hc
    simp [clean_text] at hc
  · rw [clean_text, if_neg hx]
    have hw1 : noWsRun (squashRuns isPyWs (squashRuns isCtrlWs x)) = true :=
      (squashGo_noWsRun (squashRuns isCtrlWs x)).1 false
    have hw2 : wsOnlySpace (squashRuns isPyWs (squashRuns isCtrlWs x)) = true :=
      wsOnlySpace_squashGo false (squashRuns isCtrlWs x)
    have hL1 := noWsRun_trimL _ hw1
    have hL2 := wsOnlySpace_of_subset _ _ (mem_trimL _) hw2
    refine ⟨noWsRun_trimR _ hL1, wsOnlySpace_of_subset _ _ (mem_trimR _) hL2, ?_,
      trimR_idem _⟩
    intro c hc
    rw [pyStrip] at hc
    cases hT : trimL (squashRuns isPyWs (squashRuns isCtrlWs x)) with
    | nil =>
      rw [hT] at hc
      simp [trimR] at hc
    | cons y ys =>
      rw [hT] at hc
      rcases trimR_head y ys with h0 | h0
      · rw [h0] at hc
        simp at hc
      · rw [h0] at hc
        have hcy : y = c := by
          simpa using hc
        subst hcy
        exact trimL_head _ y (by rw [hT]; rfl)

-- `clean_text` output contains none of the regex-class control characters.
theorem clean_text_noCtrl (x : List Char) :
    ∀ c ∈ clean_text x, isCtrlWs c = false := by
  intro c hc
  by_cases hx : x = []
  · subst hx
    simp [clean_text] at hc
  · rw [clean_text, if_neg hx, pyStrip] at hc
    have hmem : c ∈ squashRuns isPyWs (squashRuns isCtrlWs x) :=
      mem_trimL _ c (mem_trimR _ c hc)
    rcases mem_squashGo isPyWs _ false c hmem with h | ⟨_, hp⟩
    · subst h
      decide
    · cases hcc : isCtrlWs c with
      | false => rfl
      | true => exact absurd (ctrlWs_pyWs c hcc) (by rw [hp]; exact Bool.false_ne_true)

theorem clean_text_idem (x : List Char) :
    clean_text (clean_text x) = clean_text x := by
  by_cases h0 : clean_text x = []
  · rw [h0]
    rfl
  · obtain ⟨h1, h2, h3, h4⟩ := clean_text_inv x
    rw [clean_text, if_neg h0]
    have e1 : squashRuns isCtrlWs (clean_text x) = clean_text x :=
      squashGo_eq_self isCtrlWs (clean_text x) false (clean_text_noCtrl x)
    have e2 : squashRuns isPyWs (clean_text x) = clean_text x :=
      (squashGo_fix (clean_text x) h1 h2).1
    rw [e1, e2, pyStrip, trimL_eq_self _ h3, h4]

/-- Claim C4: `clean_text` is idempotent; on every string its output has all
runs of tabs/newlines/carriage returns/form feeds/repeated spaces collapsed to
single spaces (no adjacent whitespace remains, every whitespace character is a
plain space) and is stripped at both ends (left- and right-trim are fixed
points); and the spec's example input maps to the spec's example output. -/
theorem clean_text_idempotent_and_collapses :
    (∀ x : List Char, clean_text (clean_text x) = clean_text x) ∧
    (∀ x : List Char, noWsRun (clean_text x) = true ∧
      wsOnlySpace (clean_text x) = true ∧
      trimL (clean_text x) = clean_text x ∧
      trimR (clean_text x) = clean_text x) ∧
    clean_text ("Bulbasaur\n\tcan shoot\r\rvines.  ".toList) =
      "Bulbasaur can shoot vines.".toList := by
  refine ⟨clean_text_idem, ?_, by decide⟩
  intro x
  obtain ⟨h1, h2, h3, h4⟩ := clean_text_inv x
  exact ⟨h1, h2, trimL_eq_self _ h3, h4⟩

/-- Python `str.lower()` (ASCII model). -/
def pyLower (l : List Char) : List Char := l.map Char.toLower

/-- Worker for Python `str.title()`: a cased character is uppercased when the
previous character is not alphabetic, lowercased otherwise. -/
def pyTitleGo : Bool → List Char → List Char
  | _, [] => []
  | prevAlpha, c :: cs =>
    (if c.isAlpha then (if prevAlpha then c.toLower else c.toUpper) else c) ::
      pyTitleGo c.isAlpha cs

/-- Python `str.title()` (ASCII model). -/
def pyTitle (l : List Char) : List Char := pyTitleGo false l

/-- Python `str.capitalize()` (ASCII model): first character uppercased, the
rest lowercased. -/
def pyCapitalize : List Char → List Char
  | [] => []
  | c :: cs => c.toUpper :: pyLower cs

/-- Python `str.replace('-', ' ')`. -/
def replaceDash (l : List Char) : List Char :=
  l.map (fun c => if c = '-' then ' ' else c)

/-- One entry of `basic_data['abilities']`: the nested ability name and the
`is_hidden` tag (`.get('is_hidden', False)`, so a missing tag is `false`). -/
structure AbilityInfo where
  name : List Char
  hidden : Bool
deriving DecidableEq

/-- Display name of one ability entry, as computed in
`process_pokemon_data`: `ability_info['ability']['name'].replace('-', ' ').title()`. -/
def abilityDisplayName (a : AbilityInfo) : List Char :=
  pyTitle (replaceDash a.name)

/-- The ability loop of `process_pokemon_data` (src/data_processor.py lines
93-105): each entry goes to the hidden list when tagged hidden, to the plain
list otherwise, in source order. Returns `(abilities, hidden_abilities)`. -/
def splitAbilities : List AbilityInfo → List (List Char) × List (List Char)
  | [] => ([], [])
  | a :: rest =>
    let nm := abilityDisplayName a
    let (ab, hid) := splitAbilities rest
    if a.hidden then (ab, nm :: hid) else (nm :: ab, hid)

/-- One entry of `species_data['flavor_text_entries']`: the language name and
the raw flavor text. -/
structure FlavorEntry where
  language : List Char
  flavor_text : List Char
deriving DecidableEq

/-- The seen-set loop of `extract_flavor_texts`: keep each cleaned fragment
that is non-empty and not already seen, in first-seen order. -/
def flavorLoop (seen : List (List Char)) : List (List Char) → List (List Char)
  | [] => []
  | t :: rest =>
    if t ≠ [] ∧ t ∉ seen then t :: flavorLoop (t :: seen) rest
    else flavorLoop seen rest

/-- `DataProcessor.extract_flavor_texts` (src/data_processor.py lines 37-64):
filter to the English locale, clean each fragment, keep first occurrences of
non-empty cleaned fragments, join with single spaces. -/
def extract_flavor_texts (entries : List FlavorEntry) : List Char :=
  List.intercalate (" ".toList)
    (flavorLoop []
      (((entries.filter (fun e => e.language = "en".toList)).map
        (fun e => clean_text e.flavor_text))))

/-- `species_data` payload fields used by `process_pokemon_data`.  A Python
`None` habitat / evolves_from sub-object is `none`. -/
structure SpeciesData where
  color : List Char
  habitat : Option (List Char)
  base_happiness : Int
  capture_rate : Int
  legendary : Bool
  mythical : Bool
  flavor_text_entries : List FlavorEntry
  evolves_from_species : Option (List Char)
deriving DecidableEq

/-- `basic_data` payload fields used by `process_pokemon_data`.  `types` holds
the slot-ordered type names, `moves` pairs each move name with the learn-method
names of its `version_group_details`. -/
structure BasicData where
  id : Nat
  name : List Char
  height : Int
  weight : Int
  base_experience : Int
  types : List (List Char)
  abilities : List AbilityInfo
  stats : List (List Char × Int)
  moves : List (List Char × List (List Char))
deriving DecidableEq

/-- The `GEN_LIMITS` table of src/config.py lines 22-32: generation number
with inclusive id range. -/
def GEN_LIMITS : List (Nat × Nat × Nat) :=
  [(1, 1, 151), (2, 152, 251), (3, 252, 386), (4, 387, 493), (5, 494, 649),
   (6, 650, 721), (7, 722, 809), (8, 810, 905), (9, 906, 1025)]

/-- Generation bucket an id falls into according to the declared `GEN_LIMITS`
range table, `none` when the id is outside all declared ranges. -/
def genLookup (id : Nat) : Option Nat :=
  (GEN_LIMITS.find? (fun g => decide (g.2.1 ≤ id) && decide (id ≤ g.2.2))).map
    (fun g => g.1)

/-- The generation computation inside `process_pokemon_data`
(src/data_processor.py lines 139-146): `generation = 1`, then 2 for ids
152-251, 3 for ids 252-386; every other id keeps the default 1. -/
def assignedGeneration (pokemon_id : Nat) : Nat :=
  if 152 ≤ pokemon_id ∧ pokemon_id ≤ 251 then 2
  else if 252 ≤ pokemon_id ∧ pokemon_id ≤ 386 then 3
  else 1

/-- Lexicographic strict order on character lists (Python string `<`). -/
def lexLt : List Char → List Char → Bool
  | [], [] => false
  | [], _ :: _ => true
  | _ :: _, [] => false
  | a :: as, b :: bs => if a < b then true else if a = b then lexLt as bs else false

/-- Insert into a lexicographically sorted list (worker for Python `sorted`). -/
def insertLex (x : List Char) : List (List Char) → List (List Char)
  | [] => [x]
  | y :: ys => if lexLt y x then y :: insertLex x ys else x :: y :: ys

/-- Python `sorted` on a list of strings (insertion sort; stable, and the
inputs we sort are duplicate-free so stability is irrelevant). -/
def sortLex : List (List Char) → List (List Char)
  | [] => []
  | x :: xs => insertLex x (sortLex xs)

/-- First-occurrence deduplication with an explicit seen accumulator
(Python `dict.fromkeys` order, and Python `set` collection for inputs that
are subsequently sorted). -/
def dedupGo {α : Type} [DecidableEq α] (seen : List α) : List α → List α
  | [] => []
  | x :: xs => if x ∈ seen then dedupGo seen xs else x :: dedupGo (x :: seen) xs

/-- First-occurrence deduplication, as performed by `list(dict.fromkeys(l))`. -/
def firstDedup {α : Type} [DecidableEq α] (l : List α) : List α := dedupGo [] l

/-- The level-up move collection of `process_pokemon_data` (lines 119-128):
the set of `move.name.replace('-', ' ').title()` over moves having a
`level-up` learn method in some version group, returned sorted.  The Python
`set` is modelled by first-occurrence dedup, which `sorted` makes equal to
the set contents in sorted order. -/
def levelupMoves (moves : List (List Char × List (List Char))) : List (List Char) :=
  sortLex (firstDedup
    (moves.filterMap (fun m =>
      if "level-up".toList ∈ m.2 then some (pyTitle (replaceDash m.1)) else none)))

/-- The fields `process_pokemon_data` writes only under `if species_data:`
(src/data_processor.py lines 131-153). -/
structure SpeciesFields where
  color : List Char
  habitat : List Char
  base_happiness : Int
  capture_rate : Int
  legendary : Bool
  mythical : Bool
  generation : Nat
  flavor_text : List Char
  evolves_from : Option (List Char)
deriving DecidableEq

/-- The flat Solr document produced by `process_pokemon_data`.  The keys that
are written only when species data is present are grouped under the optional
`species` component; `species = none` models their complete absence from the
produced dictionary. -/
structure PokemonDoc where
  id : List Char
  pokemon_id : Nat
  name : List Char
  height : Int
  weight : Int
  base_experience : Int
  types : List (List Char)
  primary_type : List Char
  secondary_type : Option (List Char)
  abilities : List (List Char)
  hidden_abilities : List (List Char)
  all_abilities : List (List Char)
  stats : List (List Char × Int)
  total_stats : Int
  levelup_moves : List (List Char)
  species : Option SpeciesFields
deriving DecidableEq

/-- `DataProcessor.process_pokemon_data` (src/data_processor.py lines 66-155).
`species_data` is `none` for a Python `None` or empty (falsy) dict, matching
the `if species_data:` guard. -/
def process_pokemon_data (basic : BasicData) (species : Option SpeciesData) :
    PokemonDoc :=
  let split := splitAbilities basic.abilities
  { id := (toString basic.id).toList
    pokemon_id := basic.id
    name := pyTitle basic.name
    height := basic.height
    weight := basic.weight
    base_experience := basic.base_experience
    types := basic.types
    primary_type := basic.types.headD ("unknown".toList)
    secondary_type := basic.types[1]?
    abilities := split.1
    hidden_abilities := split.2
    all_abilities := split.1 ++ split.2
    stats := basic.stats.map (fun s =>
      ("stat_".toList ++ s.1.map (fun c => if c = '-' then '_' else c), s.2))
    total_stats := (basic.stats.map (fun s => s.2)).sum
    levelup_moves := levelupMoves basic.moves
    species := species.map (fun sd =>
      { color := sd.color
        habitat := sd.habitat.getD []
        base_happiness := sd.base_happiness
        capture_rate := sd.capture_rate
        legendary := sd.legendary
        mythical := sd.mythical
        generation := assignedGeneration basic.id
        flavor_text := extract_flavor_texts sd.flavor_text_entries
        evolves_from := sd.evolves_from_species.map pyTitle }) }

-- The ability loop splits as a filter over the hidden tag, in source order.
theorem splitAbilities_eq (entries : List AbilityInfo) :
    splitAbilities entries =
      ((entries.filter (fun a => !a.hidden)).map abilityDisplayName,
       (entries.filter (fun a => a.hidden)).map abilityDisplayName) := by
  induction entries with
  | nil => rfl
  | cons a rest ih =>
    rw [splitAbilities, ih]
    cases h : a.hidden <;> simp [List.filter_cons, h]

/-- Claim C10: when the species record is absent (Python `None` or an empty,
falsy dict, both modelled by `none`), `process_pokemon_data` still returns a
document, with the base fields filled in, but the entire species-derived
field group (generation, color, habitat, base_happiness, capture_rate,
is_legendary, is_mythical, flavor_text, evolves_from) is missing from it. -/
theorem speciesAbsent_omitsSpeciesFields (basic : BasicData) :
    (process_pokemon_data basic none).species = none ∧
    (process_pokemon_data basic none).pokemon_id = basic.id ∧
    (process_pokemon_data basic none).name = pyTitle basic.name := by
  exact ⟨rfl, rfl, rfl⟩

/-- Claim C5: an ability entry tagged hidden is routed to `hidden_abilities`,
every other entry to `abilities`, preserving source order within each list;
`all_abilities` is the concatenation `abilities ++ hidden_abilities` with no
cross-list deduplication — an ability listed both hidden and non-hidden
appears twice -- and the spec's Overgrow/Chlorophyll example holds. -/
theorem abilitySplit_routesAndConcats :
    (∀ (basic : BasicData) (sp : Option SpeciesData),
      (process_pokemon_data basic sp).abilities =
        (basic.abilities.filter (fun a => !a.hidden)).map abilityDisplayName ∧
      (process_pokemon_data basic sp).hidden_abilities =
        (basic.abilities.filter (fun a => a.hidden)).map abilityDisplayName ∧
      (process_pokemon_data basic sp).all_abilities =
        (process_pokemon_data basic sp).abilities ++
          (process_pokemon_data basic sp).hidden_abilities) ∧
    splitAbilities
        [⟨"overgrow".toList, false⟩, ⟨"chlorophyll".toList, true⟩] =
      (["Overgrow".toList], ["Chlorophyll".toList]) ∧
    (splitAbilities [⟨"overgrow".toList, false⟩, ⟨"overgrow".toList, true⟩]).1 ++
        (splitAbilities [⟨"overgrow".toList, false⟩, ⟨"overgrow".toList, true⟩]).2 =
      ["Overgrow".toList, "Overgrow".toList] := by
  refine ⟨?_, by decide, by decide⟩
  intro basic sp
  have h := splitAbilities_eq basic.abilities
  refine ⟨?_, ?_, rfl⟩
  · show (splitAbilities basic.abilities).1 = _
    rw [h]
  · show (splitAbilities basic.abilities).2 = _
    rw [h]

/-- A minimal concrete species record (content irrelevant: only its presence
triggers the species block of `process_pokemon_data`). -/
def someSpecies : SpeciesData :=
  { color := "green".toList
    habitat := some ("grassland".toList)
    base_happiness := 70
    capture_rate := 45
    legendary := false
    mythical := false
    flavor_text_entries := []
    evolves_from_species := none }

/-- A minimal concrete basic record with the given id. -/
def basicAt (n : Nat) : BasicData :=
  { id := n
    name := "test".toList
    height := 7
    weight := 69
    base_experience := 64
    types := ["grass".toList]
    abilities := []
    stats := []
    moves := [] }

/-- Claim C1 (code bug): config.py's `GEN_LIMITS` declares nine ascending,
non-overlapping ranges (387 belongs to generation 4; 1026 to none), but
`process_pokemon_data` never consults the table: it hardcodes only the
generation-2 and generation-3 ranges and silently assigns the default
generation 1 to every other id — including ids inside declared ranges 4-9 and
ids outside all declared ranges, which are not skipped or flagged. -/
theorem generationAssignment_ignoresGenLimits :
    genLookup 387 = some 4 ∧
    ((process_pokemon_data (basicAt 387) (some someSpecies)).species.map
      (fun s => s.generation)) = some 1 ∧
    genLookup 1026 = none ∧
    ((process_pokemon_data (basicAt 1026) (some someSpecies)).species.map
      (fun s => s.generation)) = some 1 ∧
    assignedGeneration 494 = 1 ∧ genLookup 494 = some 5 ∧
    assignedGeneration 1025 = 1 ∧ genLookup 1025 = some 9 := by
  refine ⟨by decide, by decide, by decide, by decide, by decide, by decide,
    by decide, by decide⟩

/-- `l` starts with `p` (Python `str.startswith`). -/
def startsWithL : List Char → List Char → Bool
  | _, [] => true
  | [], _ :: _ => false
  | c :: cs, d :: ds => c = d && startsWithL cs ds

/-- Python substring test `needle in hay`. -/
def containsL : List Char → List Char → Bool
  | [], needle => needle.isEmpty
  | hay@(_ :: t), needle => startsWithL hay needle || containsL t needle

/-- Case-insensitive starts-with, `a.lower().startswith(b.lower())`. -/
def lowerStartsWith (t q : List Char) : Bool :=
  startsWithL (pyLower t) (pyLower q)

/-- Case-insensitive substring test, `q.lower() in n.lower()`. -/
def lowerContains (n q : List Char) : Bool :=
  containsL (pyLower n) (pyLower q)

/-- The Solr engine seen through `pysolr.Solr.search`: a hit-count oracle
from a query string, `Except.error` on an I/O failure (the `except` branch of
the probe helpers). -/
abbrev SolrOracle := List Char → Except (List Char) Nat

/-- Probe query string sent by `check_if_ability`:
`f'all_abilities:"{title_query}"'`. -/
def abilityProbeQuery (q : List Char) : List Char :=
  "all_abilities:\"".toList ++ pyTitle q ++ "\"".toList

/-- Probe query string sent by `check_if_type`:
`f'(primary_type:{title_query} OR secondary_type:{title_query})'`. -/
def typeProbeQuery (q : List Char) : List Char :=
  "(primary_type:".toList ++ pyTitle q ++ " OR secondary_type:".toList ++
    pyTitle q ++ ")".toList

/-- `PokemonSearchApp.check_if_ability` (src/web/web_app.py lines 237-260):
count matches of the title-cased token against the ability list; any raised
error is swallowed and reported as `False`. -/
def check_if_ability (solr : SolrOracle) (query : List Char) : Bool :=
  match solr (abilityProbeQuery query) with
  | Except.ok hits => decide (hits > 0)
  | Except.error _ => false

/-- `PokemonSearchApp.check_if_type` (src/web/web_app.py lines 262-285). -/
def check_if_type (solr : SolrOracle) (query : List Char) : Bool :=
  match solr (typeProbeQuery query) with
  | Except.ok hits => decide (hits > 0)
  | Except.error _ => false

/-- The query classifications of the planner's decision procedure. -/
inductive QueryClass
  | abilityLike
  | typeLike
  | shortWildcard
  | freeText
  | matchAll
deriving DecidableEq

/-- The universal-match sentinel `'*:*'`. -/
def matchAllQ : List Char := "*:*".toList

/-- The branch structure of `search_pokemon` (src/web/web_app.py lines 91-93
and 116-137) read as a classification: empty/whitespace-only queries are
replaced by the sentinel; a non-sentinel query is probed for ability, then
type, then tested for `len(query) <= 3 or ' ' not in query`. -/
def classifyQuery (solr : SolrOracle) (rawQ : List Char) : QueryClass :=
  let query := if pyStrip rawQ = [] then matchAllQ else rawQ
  if query ≠ [] ∧ query ≠ matchAllQ then
    let query_lower := pyStrip (pyLower query)
    if check_if_ability solr query_lower then QueryClass.abilityLike
    else if check_if_type solr query_lower then QueryClass.typeLike
    else if query.length ≤ 3 ∨ ' ' ∉ query then QueryClass.shortWildcard
    else QueryClass.freeText
  else QueryClass.matchAll

/-- The `enhanced_query` construction of `search_pokemon` (lines 116-137),
one branch per classification. -/
def enhancedQuery (solr : SolrOracle) (query : List Char) : List Char :=
  let query_lower := pyStrip (pyLower query)
  if check_if_ability solr query_lower then
    "name:*".toList ++ query ++ "* OR all_abilities:\"".toList ++
      pyTitle query ++ "\" OR all_abilities:*".toList ++ pyTitle query ++
      "*".toList
  else if check_if_type solr query_lower then
    "name:*".toList ++ query ++ "* OR types:*".toList ++ pyTitle query ++
      "* OR primary_type:".toList ++ pyTitle query ++
      " OR secondary_type:".toList ++ pyTitle query
  else if query.length ≤ 3 ∨ ' ' ∉ query then
    "name:*".toList ++ query ++ "* OR name:*".toList ++ pyCapitalize query ++
      "*".toList
  else query

/-- The parameter dictionary `search_pokemon` passes to `self.solr.search`;
`none` models an absent key. -/
structure SolrParams where
  q : List Char
  start : Nat
  rows : Nat
  sort : List Char
  facet : Bool
  facetFields : List (List Char)
  facetMincount : Nat
  defType : Option (List Char)
  qf : Option (List Char)
  mm : Option (List Char)
  qs : Option (List Char)
  ps : Option (List Char)
  tie : Option (List Char)
  fq : List (List Char)
deriving DecidableEq

/-- `'facet.field': ['generation', 'primary_type', 'color', 'habitat']`. -/
def facetFieldList : List (List Char) :=
  ["generation".toList, "primary_type".toList, "color".toList,
   "habitat".toList]

/-- The main-query parameter building of `search_pokemon` (src/web/web_app.py
lines 91-93 and 114-168): empty/whitespace-only queries become the sentinel;
a non-sentinel query gets the enhanced query under edismax with field
boosts; the sentinel gets the plain universal-match parameters; filters are
attached as `fq` in both cases (an empty filter list models the absent key). -/
def build_search_params (solr : SolrOracle) (rawQ : List Char)
    (start rows : Nat) (sortParam : List Char) (filters : List (List Char)) :
    SolrParams :=
  let query := if pyStrip rawQ = [] then matchAllQ else rawQ
  if query ≠ [] ∧ query ≠ matchAllQ then
    { q := enhancedQuery solr query
      start := start
      rows := rows
      sort := sortParam
      facet := true
      facetFields := facetFieldList
      facetMincount := 1
      defType := some ("edismax".toList)
      qf := some ("name^5 types^3 all_abilities^3 flavor_text^1".toList)
      mm := some ("1".toList)
      qs := some ("2".toList)
      ps := some ("2".toList)
      tie := some ("0.1".toList)
      fq := filters }
  else
    { q := matchAllQ
      start := start
      rows := rows
      sort := sortParam
      facet := true
      facetFields := facetFieldList
      facetMincount := 1
      defType := none
      qf := none
      mm := none
      qs := none
      ps := none
      tie := none
      fq := filters }

/-- Python truthiness of an optional string request argument. -/
def optTruthy : Option (List Char) → Bool
  | none => false
  | some s => !s.isEmpty

/-- The true-like legendary filter values `['true', '1', 'yes']`. -/
def trueLikeValues : List (List Char) :=
  ["true".toList, "1".toList, "yes".toList]

/-- `'(is_legendary:true OR is_mythical:true)'`. -/
def legendaryTrueClause : List Char :=
  "(is_legendary:true OR is_mythical:true)".toList

/-- `'(is_legendary:false AND is_mythical:false)'`. -/
def legendaryFalseClause : List Char :=
  "(is_legendary:false AND is_mythical:false)".toList

/-- `PokemonSearchApp.build_solr_filters` (src/web/web_app.py lines 287-320):
each truthy argument appends its clause in order; the legendary clause is the
OR clause for a case-insensitive true-like value and the AND-false clause for
any other truthy value. -/
def build_solr_filters (generation pokemonType ability legendary :
    Option (List Char)) : List (List Char) :=
  (if optTruthy generation then
    ["generation:".toList ++ generation.getD []] else []) ++
  (if optTruthy pokemonType then
    ["(primary_type:".toList ++ pokemonType.getD [] ++
      " OR secondary_type:".toList ++ pokemonType.getD [] ++ ")".toList]
   else []) ++
  (if optTruthy ability then
    ["all_abilities:*".toList ++ ability.getD [] ++ "*".toList] else []) ++
  (if optTruthy legendary then
    (if pyLower (legendary.getD []) ∈ trueLikeValues then
      [legendaryTrueClause] else [legendaryFalseClause])
   else [])

/-- The filter values as received from the request arguments (`none` models
an absent parameter). -/
structure SearchFilters where
  generation : Option (List Char)
  ptype : Option (List Char)
  ability : Option (List Char)
  legendary : Option (List Char)
deriving DecidableEq

/-- Pair consecutive elements of a flat alternating value/count array
(`values[i], values[i+1]` with stride 2; a trailing odd element is dropped by
the `i + 1 < len(values)` guard). -/
def pairUp {v : Type} : List v → List (v × v)
  | a :: b :: rest => (a, b) :: pairUp rest
  | _ => []

/-- `PokemonSearchApp.format_facets` (src/web/web_app.py lines 322-347):
skip fields ending in `_facet` and non-list values (`none`), pair up the
rest. -/
def format_facets {v : Type} (facets : List (List Char × Option (List v))) :
    List (List Char × List (v × v)) :=
  (facets.filter (fun f =>
    !(List.isSuffixOf "_facet".toList f.1) && f.2.isSome)).map
    (fun f => (f.1, pairUp (f.2.getD [])))

/-- The success response dictionary of `search_pokemon` (src/web/web_app.py
lines 206-224), generic over the document type `α` and the facet cell type
`v`. -/
structure SearchResponse (α v : Type) where
  success : Bool
  total : Nat
  start : Nat
  rows : Nat
  results : List α
  facets : List (List Char × List (v × v))
  query : List Char
  spellSuggestions : List (List Char)
  collated : Option (List Char)
  filters : SearchFilters
deriving DecidableEq

/-- Assembly of the success response of `search_pokemon`: the `query` field
holds the `query` variable, which was replaced by the `'*:*'` sentinel when
the raw parameter was empty or whitespace-only (lines 91-93); the `filters`
object holds the raw request arguments. -/
def build_search_response {α v : Type} (rawQ : List Char) (start rows : Nat)
    (hits : Nat) (docs : List α)
    (rawFacets : List (List Char × Option (List v)))
    (sugg : List (List Char)) (collated : Option (List Char))
    (fs : SearchFilters) : SearchResponse α v :=
  let query := if pyStrip rawQ = [] then matchAllQ else rawQ
  { success := true
    total := hits
    start := start
    rows := rows
    results := docs
    facets := format_facets rawFacets
    query := query
    spellSuggestions := sugg
    collated := collated
    filters := fs }

/-- The terms-component loop of `get_autocomplete_suggestions`
(src/web/web_app.py lines 447-474): walk the (term, count) pairs, appending
each term whose lowercase form starts with the lowercase query and which is
not already collected. -/
def termsLoop (q : List Char) (acc : List (List Char)) :
    List (List Char × Nat) → List (List Char)
  | [] => acc
  | (t, _) :: rest =>
    if lowerStartsWith t q && decide (t ∉ acc) then
      termsLoop q (acc ++ [t]) rest
    else termsLoop q acc rest

/-- Truthy, case-insensitive-substring, non-duplicate test of the name loop:
`if name and query.lower() in name.lower() and name not in suggestions`. -/
def nameBaseMatch (q n : List Char) : Bool :=
  !n.isEmpty && lowerContains n q

/-- The wildcard-name loop of `get_autocomplete_suggestions` (lines 497-514):
names passing the base test split into prefix matches and substring matches,
in document order. -/
def splitNameMatches (q : List Char) (sugg : List (List Char)) :
    List (List Char) → List (List Char) × List (List Char)
  | [] => ([], [])
  | name :: rest =>
    let pr := splitNameMatches q sugg rest
    if nameBaseMatch q name && decide (name ∉ sugg) then
      (if lowerStartsWith name q then (name :: pr.1, pr.2)
       else (pr.1, name :: pr.2))
    else pr

/-- `PokemonSearchApp.get_autocomplete_suggestions` (src/web/web_app.py lines
429-525) given the engine's term list and the wildcard search's document
names: strip the query, short-circuit below 2 characters, collect term
matches, extend with prefix then substring name matches, dedupe preserving
first occurrence (`dict.fromkeys`) and cap at 8. -/
def get_autocomplete_suggestions (rawQ : List Char)
    (terms : List (List Char × Nat)) (docNames : List (List Char)) :
    List (List Char) :=
  let query := pyStrip rawQ
  if query = [] ∨ query.length < 2 then []
  else
    let s1 := termsLoop query [] terms
    let pr := splitNameMatches query s1 docNames
    (firstDedup (s1 ++ pr.1 ++ pr.2)).take 8

/-- The merge rule exactly as the specification words it: term-prefix lookup
results, then name-prefix matches, then name-substring matches, concatenated,
duplicates removed preserving first occurrence, truncated to 8. -/
def specAutocompleteMerge (rawQ : List Char)
    (terms : List (List Char × Nat)) (docNames : List (List Char)) :
    List (List Char) :=
  let q := pyStrip rawQ
  (firstDedup
    (((terms.map Prod.fst).filter (fun t => lowerStartsWith t q)) ++
     (docNames.filter (fun n => nameBaseMatch q n && lowerStartsWith n q)) ++
     (docNames.filter (fun n => nameBaseMatch q n && !lowerStartsWith n q)))).take 8

-- `dedupGo` depends on the seen accumulator only through membership.
theorem dedupGo_congr {α : Type} [DecidableEq α] (s1 s2 : List α)
    (h : ∀ x, x ∈ s1 ↔ x ∈ s2) (l : List α) :
    dedupGo s1 l = dedupGo s2 l := by
  induction l generalizing s1 s2 with
  | nil => rfl
  | cons x xs ih =>
    rw [dedupGo, dedupGo]
    by_cases hx : x ∈ s1
    · rw [if_pos hx, if_pos ((h x).mp hx)]
      exact ih s1 s2 h
    · rw [if_neg hx, if_neg (fun hc => hx ((h x).mpr hc))]
      refine congrArg (x :: ·) (ih (x :: s1) (x :: s2) ?_)
      intro y
      simp only [List.mem_cons]
      exact or_congr Iff.rfl (h y)

theorem mem_dedupGo {α : Type} [DecidableEq α] (seen l : List α) (x : α) :
    x ∈ dedupGo seen l ↔ x ∈ l ∧ x ∉ seen := by
  induction l generalizing seen with
  | nil => simp [dedupGo]
  | cons y ys ih =>
    rw [dedupGo]
    by_cases hy : y ∈ seen
    · rw [if_pos hy, ih seen]
      simp only [List.mem_cons]
      constructor
      · rintro ⟨h1, h2⟩
        exact ⟨Or.inr h1, h2⟩
      · rintro ⟨h1 | h1, h2⟩
        · subst h1
          exact absurd hy h2
        · exact ⟨h1, h2⟩
    · rw [if_neg hy]
      simp only [List.mem_cons, ih (y :: seen), List.mem_cons]
      constructor
      · rintro (h | ⟨h1, h2⟩)
        · subst h
          exact ⟨Or.inl rfl, hy⟩
        · exact ⟨Or.inr h1, fun hc => h2 (Or.inr hc)⟩
      · rintro ⟨h1 | h1, h2⟩
        · exact Or.inl h1
        · by_cases hxy : x = y
          · exact Or.inl hxy
          · exact Or.inr ⟨h1, fun hc => hc.elim hxy h2⟩

theorem dedupGo_append {α : Type} [DecidableEq α] (seen a b : List α) :
    dedupGo seen (a ++ b) = dedupGo seen a ++ dedupGo (a ++ seen) b := by
  induction a generalizing seen with
  | nil => rfl
  | cons x xs ih =>
    rw [List.cons_append, dedupGo, dedupGo]
    by_cases hx : x ∈ seen
    · rw [if_pos hx, if_pos hx, ih seen]
      refine congrArg (dedupGo seen xs ++ ·) (dedupGo_congr _ _ ?_ b)
      intro y
      simp only [List.mem_append, List.mem_cons]
      constructor
      · rintro (h | h)
        · exact Or.inl (Or.inr h)
        · exact Or.inr h
      · rintro (h | h)
        · rcases h with h | h
          · subst h
            exact Or.inr hx
          · exact Or.inl h
        · exact Or.inr h
    · rw [if_neg hx, if_neg hx, ih (x :: seen), List.cons_append]
      refine congrArg (x :: ·) (congrArg (dedupGo (x :: seen) xs ++ ·)
        (dedupGo_congr _ _ ?_ b))
      intro y
      simp only [List.mem_append, List.mem_cons]
      tauto

theorem dedupGo_idem {α : Type} [DecidableEq α] (seen l : List α) :
    dedupGo seen (dedupGo seen l) = dedupGo seen l := by
  induction l generalizing seen with
  | nil => rfl
  | cons x xs ih =>
    rw [dedupGo]
    by_cases hx : x ∈ seen
    · rw [if_pos hx]
      exact ih seen
    · rw [if_neg hx, dedupGo, if_neg hx]
      exact congrArg (x :: ·) (ih (x :: seen))

-- Filtering out only elements already seen does not change the dedup result.
theorem dedupGo_filter_seen {α : Type} [DecidableEq α] (seen l : List α)
    (p : α → Bool) (h : ∀ x ∈ l, p x = false → x ∈ seen) :
    dedupGo seen (l.filter p) = dedupGo seen l := by
  induction l generalizing seen with
  | nil => rfl
  | cons x xs ih =>
    rw [List.filter_cons]
    by_cases hp : p x = true
    · rw [if_pos hp, dedupGo, dedupGo]
      by_cases hx : x ∈ seen
      · rw [if_pos hx, if_pos hx]
        exact ih seen (fun y hy hpy => h y (List.mem_cons_of_mem x hy) hpy)
      · rw [if_neg hx, if_neg hx]
        refine congrArg (x :: ·) (ih (x :: seen) ?_)
        intro y hy hpy
        exact List.mem_cons_of_mem x (h y (List.mem_cons_of_mem x hy) hpy)
    · rw [if_neg hp, dedupGo,
        if_pos (h x (List.mem_cons_self x xs) (Bool.eq_false_iff.mpr hp))]
      exact ih seen (fun y hy hpy => h y (List.mem_cons_of_mem x hy) hpy)

-- The terms loop equals accumulator plus first-occurrence dedup of the
-- filtered term list.
theorem termsLoop_eq (q : List Char) (acc : List (List Char))
    (terms : List (List Char × Nat)) :
    termsLoop q acc terms =
      acc ++ dedupGo acc
        ((terms.map Prod.fst).filter (fun t => lowerStartsWith t q)) := by
  induction terms generalizing acc with
  | nil => simp [termsLoop, dedupGo]
  | cons tc rest ih =>
    obtain ⟨t, c⟩ := tc
    rw [termsLoop, List.map_cons, List.filter_cons]
    by_cases hs : lowerStartsWith t q = true
    · simp only [hs, Bool.true_and, if_pos]
      by_cases hm : t ∈ acc
      · rw [if_neg (by simp [hm]), ih acc, dedupGo, if_pos hm]
      · rw [if_pos (by simp [hs, hm]), ih (acc ++ [t]), dedupGo, if_neg hm,
          List.append_assoc, List.singleton_append]
        refine congrArg (acc ++ ·) (congrArg (t :: ·) (dedupGo_congr _ _ ?_ _))
        intro y
        simp only [List.mem_append, List.mem_singleton, List.mem_cons]
        tauto
    · rw [if_neg (by simp [hs]), ih acc]
      simp only [Bool.eq_false_iff.mpr hs, Bool.false_and, if_neg Bool.false_ne_true]

-- The name loop splits as two filters over the document names.
theorem splitNameMatches_eq (q : List Char) (sugg : List (List Char))
    (docs : List (List Char)) :
    splitNameMatches q sugg docs =
      ((docs.filter (fun n => nameBaseMatch q n && lowerStartsWith n q)).filter
         (fun n => decide (n ∉ sugg)),
       (docs.filter (fun n => nameBaseMatch q n && !lowerStartsWith n q)).filter
         (fun n => decide (n ∉ sugg))) := by
  induction docs with
  | nil => rfl
  | cons n rest ih =>
    rw [splitNameMatches, ih]
    by_cases hb : nameBaseMatch q n = true
    · by_cases hs : lowerStartsWith n q = true
      · by_cases hm : n ∈ sugg
        · simp [List.filter_cons, hb, hs, hm]
        · simp [List.filter_cons, hb, hs, hm]
      · by_cases hm : n ∈ sugg
        · simp [List.filter_cons, hb, Bool.eq_false_iff.mpr hs, hm]
        · simp [List.filter_cons, hb, Bool.eq_false_iff.mpr hs, hm]
    · simp [List.filter_cons, Bool.eq_false_iff.mpr hb]

-- Pre-deduplicating the first block and pre-filtering known duplicates out
-- of the later blocks does not change a first-occurrence dedup of the
-- concatenation.
theorem dedupMergeKey (t pm sm : List (List Char)) :
    dedupGo [] (dedupGo [] t ++
      ((pm.filter (fun n => decide (n ∉ dedupGo [] t))) ++
       (sm.filter (fun n => decide (n ∉ dedupGo [] t))))) =
    dedupGo [] (t ++ (pm ++ sm)) := by
  have h1 : dedupGo ([] : List (List Char)) (dedupGo [] t ++
      ((pm.filter (fun n => decide (n ∉ dedupGo [] t))) ++
       (sm.filter (fun n => decide (n ∉ dedupGo [] t))))) =
      dedupGo [] t ++ dedupGo (dedupGo [] t) (pm ++ sm) := by
    rw [dedupGo_append, dedupGo_idem]
    simp only [List.append_nil]
    refine congrArg (dedupGo [] t ++ ·) ?_
    rw [← List.filter_append]
    exact dedupGo_filter_seen (dedupGo [] t) (pm ++ sm) _ (by
      intro x _ hx
      simpa using hx)
  have h2 : dedupGo ([] : List (List Char)) (t ++ (pm ++ sm)) =
      dedupGo [] t ++ dedupGo (dedupGo [] t) (pm ++ sm) := by
    rw [dedupGo_append]
    simp only [List.append_nil]
    refine congrArg (dedupGo [] t ++ ·) ?_
    refine dedupGo_congr _ _ ?_ _
    intro y
    rw [mem_dedupGo]
    simp
  rw [h1, h2]

/-- Claim C9: for every autocomplete query of at least 2 characters (after
the `.strip()` the route applies), the suggestion list built by the code's
two accumulating loops plus final `dict.fromkeys` dedup and cap equals the
spec's merge rule: term-prefix matches, then name-prefix matches, then
name-substring matches, concatenated, first-occurrence deduplicated,
truncated to at most 8 entries. -/
theorem autocomplete_mergeRule (rawQ : List Char)
    (terms : List (List Char × Nat)) (docNames : List (List Char))
    (h : 2 ≤ (pyStrip rawQ).length) :
    get_autocomplete_suggestions rawQ terms docNames =
      specAutocompleteMerge rawQ terms docNames := by
  have hq : ¬(pyStrip rawQ = [] ∨ (pyStrip rawQ).length < 2) := by
    rintro (h0 | h0)
    · rw [h0] at h
      simp at h
    · omega
  simp only [get_autocomplete_suggestions, specAutocompleteMerge]
  rw [if_neg hq]
  refine congrArg (List.take 8) ?_
  rw [termsLoop_eq (pyStrip rawQ) [] terms, List.nil_append, splitNameMatches_eq]
  simp only [firstDedup]
  rw [List.append_assoc, List.append_assoc]
  exact dedupMergeKey
    ((terms.map Prod.fst).filter (fun t => lowerStartsWith t (pyStrip rawQ)))
    (docNames.filter (fun n =>
      nameBaseMatch (pyStrip rawQ) n && lowerStartsWith n (pyStrip rawQ)))
    (docNames.filter (fun n =>
      nameBaseMatch (pyStrip rawQ) n && !lowerStartsWith n (pyStrip rawQ)))

/-- Witness for Claim C9 at a concrete query, term list and document list. -/
theorem autocomplete_mergeRule_witness :
    2 ≤ (pyStrip ("ch".toList)).length ∧
    get_autocomplete_suggestions ("ch".toList)
        [("chlorophyll".toList, 3), ("tackle".toList, 2), ("chlorophyll".toList, 1)]
        ["Charmander".toList, "Scorch".toList, "Chlorophyll".toList, "".toList] =
      specAutocompleteMerge ("ch".toList)
        [("chlorophyll".toList, 3), ("tackle".toList, 2), ("chlorophyll".toList, 1)]
        ["Charmander".toList, "Scorch".toList, "Chlorophyll".toList, "".toList] :=
  ⟨by decide, autocomplete_mergeRule _ _ _ (by decide)⟩

/-- A Solr oracle that always answers zero hits (a negative probe). -/
def probeOk0 : SolrOracle := fun _ => Except.ok 0

/-- Claim C2 (amended): for every non-empty, non-whitespace-only raw query
other than the literal `'*:*'` sentinel, the planner classifies by testing
rules in fixed order and taking the first match: a positive ability probe
gives ability-like; otherwise a positive type probe gives type-like;
otherwise length ≤ 3 or no space character gives short-wildcard; otherwise
free-text. -/
theorem classification_ruleOrder (solr : SolrOracle) (rawQ : List Char)
    (h1 : pyStrip rawQ ≠ []) (h2 : rawQ ≠ matchAllQ) :
    (check_if_ability solr (pyStrip (pyLower rawQ)) = true →
      classifyQuery solr rawQ = QueryClass.abilityLike) ∧
    (check_if_ability solr (pyStrip (pyLower rawQ)) = false →
      check_if_type solr (pyStrip (pyLower rawQ)) = true →
      classifyQuery solr rawQ = QueryClass.typeLike) ∧
    (check_if_ability solr (pyStrip (pyLower rawQ)) = false →
      check_if_type solr (pyStrip (pyLower rawQ)) = false →
      (rawQ.length ≤ 3 ∨ ' ' ∉ rawQ) →
      classifyQuery solr rawQ = QueryClass.shortWildcard) ∧
    (check_if_ability solr (pyStrip (pyLower rawQ)) = false →
      check_if_type solr (pyStrip (pyLower rawQ)) = false →
      ¬(rawQ.length ≤ 3 ∨ ' ' ∉ rawQ) →
      classifyQuery solr rawQ = QueryClass.freeText) := by
  have hne : rawQ ≠ [] := by
    intro h0
    exact h1 (by rw [h0]; rfl)
  simp only [classifyQuery]
  rw [if_neg h1, if_pos ⟨hne, h2⟩]
  refine ⟨?_, ?_, ?_, ?_⟩
  · intro ha
    rw [if_pos ha]
  · intro ha ht
    rw [if_neg (by rw [ha]; exact Bool.false_ne_true), if_pos ht]
  · intro ha ht hs
    rw [if_neg (by rw [ha]; exact Bool.false_ne_true),
      if_neg (by rw [ht]; exact Bool.false_ne_true), if_pos hs]
  · intro ha ht hs
    rw [if_neg (by rw [ha]; exact Bool.false_ne_true),
      if_neg (by rw [ht]; exact Bool.false_ne_true), if_neg hs]

/-- Witness for Claim C2 (amended) at a concrete query and negative probes. -/
theorem classification_ruleOrder_witness :
    classifyQuery probeOk0 ("xyz".toList) = QueryClass.shortWildcard :=
  (classification_ruleOrder probeOk0 ("xyz".toList) (by decide)
    (by decide)).2.2.1 (by decide) (by decide) (by decide)

/-- Claim C2 counterexample: the query `"ab\tcd"` contains whitespace (a tab)
and is longer than 3, so by the claim's rule (3)/(4) it should classify
free-text when both probes are negative; the code tests only for a space
character and classifies it short-wildcard.  Also the literal `'*:*'` query
is non-empty and non-whitespace-only yet bypasses all four rules. -/
theorem classification_counterexample :
    ("ab\tcd".toList).length > 3 ∧
    (∃ c ∈ "ab\tcd".toList, isPyWs c = true) ∧
    check_if_ability probeOk0 (pyStrip (pyLower ("ab\tcd".toList))) = false ∧
    check_if_type probeOk0 (pyStrip (pyLower ("ab\tcd".toList))) = false ∧
    classifyQuery probeOk0 ("ab\tcd".toList) = QueryClass.shortWildcard ∧
    classifyQuery probeOk0 ("ab\tcd".toList) ≠ QueryClass.freeText ∧
    pyStrip matchAllQ ≠ [] ∧
    classifyQuery probeOk0 matchAllQ = QueryClass.matchAll := by
  decide

/-- Claim C8: a classification probe whose engine call raises is treated as a
negative match: both probe helpers swallow any error and return false,
classification proceeds exactly as with a zero-hit negative probe (falling
through to the next rule), and the search parameters are still built — the
request is never aborted. -/
theorem probeFailure_negativeMatch (e : List Char) (q rawQ : List Char)
    (start rows : Nat) (sortParam : List Char) (filters : List (List Char)) :
    check_if_ability (fun _ => Except.error e) q = false ∧
    check_if_type (fun _ => Except.error e) q = false ∧
    classifyQuery (fun _ => Except.error e) rawQ = classifyQuery probeOk0 rawQ ∧
    build_search_params (fun _ => Except.error e) rawQ start rows sortParam
        filters =
      build_search_params probeOk0 rawQ start rows sortParam filters := by
  refine ⟨rfl, rfl, ?_, ?_⟩
  · simp [classifyQuery, check_if_ability, check_if_type, probeOk0]
  · simp [build_search_params, enhancedQuery, check_if_ability, check_if_type,
      probeOk0]

/-- Claim C6: an empty or whitespace-only raw query is classified match-all
and produces exactly the parameters of an explicit universal-match request:
the sentinel query string, no edismax mode, no field boosting. -/
theorem emptyQuery_matchAll (solr : SolrOracle) (rawQ : List Char)
    (start rows : Nat) (sortParam : List Char) (filters : List (List Char))
    (h : pyStrip rawQ = []) :
    classifyQuery solr rawQ = QueryClass.matchAll ∧
    build_search_params solr rawQ start rows sortParam filters =
      build_search_params solr matchAllQ start rows sortParam filters ∧
    (build_search_params solr rawQ start rows sortParam filters).q =
      matchAllQ ∧
    (build_search_params solr rawQ start rows sortParam filters).defType =
      none ∧
    (build_search_params solr rawQ start rows sortParam filters).qf = none := by
  have hs : ¬(pyStrip matchAllQ = []) := by decide
  have hcond : ¬(matchAllQ ≠ [] ∧ matchAllQ ≠ matchAllQ) := fun hc => hc.2 rfl
  have e0 : build_search_params solr rawQ start rows sortParam filters =
      build_search_params solr matchAllQ start rows sortParam filters := by
    simp only [build_search_params]
    rw [if_pos h, if_neg hs]
  refine ⟨?_, e0, ?_, ?_, ?_⟩
  · simp only [classifyQuery]
    rw [if_pos h, if_neg hcond]
  all_goals
    rw [e0]
    simp only [build_search_params]
    rw [if_neg hs, if_neg hcond]

/-- Witness for Claim C6 at the whitespace-only query `"   "`. -/
theorem emptyQuery_matchAll_witness :
    build_search_params probeOk0 ("   ".toList) 0 20
        ("pokemon_id asc".toList) [] =
      build_search_params probeOk0 matchAllQ 0 20
        ("pokemon_id asc".toList) [] ∧
    (build_search_params probeOk0 ("   ".toList) 0 20
        ("pokemon_id asc".toList) []).qf = none :=
  ⟨(emptyQuery_matchAll probeOk0 ("   ".toList) 0 20 ("pokemon_id asc".toList)
      [] (by decide)).2.1,
   (emptyQuery_matchAll probeOk0 ("   ".toList) 0 20 ("pokemon_id asc".toList)
      [] (by decide)).2.2.2.2⟩

/-- Claim C7 counterexample: a successful request with the empty raw query
echoes the substituted `'*:*'` sentinel in the `query` field, not the
caller's original string. -/
theorem responseEcho_counterexample :
    (@build_search_response Nat Nat ("".toList) 0 20 0 [] [] [] none
        ⟨none, none, none, none⟩).query ≠ "".toList ∧
    (@build_search_response Nat Nat ("".toList) 0 20 0 [] [] [] none
        ⟨none, none, none, none⟩).query = matchAllQ := by
  decide

/-- Claim C7 (amended): the successful response envelope echoes the filter
values exactly as received; the `query` field echoes the caller's raw query
exactly whenever it is not empty or whitespace-only, and otherwise holds the
substituted `'*:*'` sentinel. -/
theorem responseEcho_filtersExact {α v : Type} (rawQ : List Char)
    (start rows hits : Nat) (docs : List α)
    (rawFacets : List (List Char × Option (List v)))
    (sugg : List (List Char)) (collated : Option (List Char))
    (fs : SearchFilters) :
    (build_search_response rawQ start rows hits docs rawFacets sugg collated
      fs).filters = fs ∧
    (pyStrip rawQ ≠ [] →
      (build_search_response rawQ start rows hits docs rawFacets sugg collated
        fs).query = rawQ) ∧
    (pyStrip rawQ = [] →
      (build_search_response rawQ start rows hits docs rawFacets sugg collated
        fs).query = matchAllQ) := by
  refine ⟨rfl, ?_, ?_⟩
  · intro h
    simp only [build_search_response]
    rw [if_neg h]
  · intro h
    simp only [build_search_response]
    rw [if_pos h]

/-- Witness for Claim C7 (amended) at a concrete non-empty query. -/
theorem responseEcho_filtersExact_witness :
    (@build_search_response Nat Nat ("pikachu".toList) 0 20 1 [25]
        [("generation".toList, some [1, 12])] [] none
        ⟨some ("1".toList), none, none, some ("yes".toList)⟩).filters =
      ⟨some ("1".toList), none, none, some ("yes".toList)⟩ ∧
    (@build_search_response Nat Nat ("pikachu".toList) 0 20 1 [25]
        [("generation".toList, some [1, 12])] [] none
        ⟨some ("1".toList), none, none, some ("yes".toList)⟩).query =
      "pikachu".toList :=
  ⟨(responseEcho_filtersExact ("pikachu".toList) 0 20 1 [25]
      [("generation".toList, some [1, 12])] [] none
      ⟨some ("1".toList), none, none, some ("yes".toList)⟩).1,
   (responseEcho_filtersExact ("pikachu".toList) 0 20 1 [25]
      [("generation".toList, some [1, 12])] [] none
      ⟨some ("1".toList), none, none, some ("yes".toList)⟩).2.1 (by decide)⟩

-- The legendary clause is appended after the other three filter blocks.
theorem build_solr_filters_legPart (g t a leg : Option (List Char)) :
    build_solr_filters g t a leg =
      build_solr_filters g t a none ++
        (if optTruthy leg then
          (if pyLower (leg.getD []) ∈ trueLikeValues then
            [legendaryTrueClause]
           else [legendaryFalseClause])
         else []) := by
  simp only [build_solr_filters]
  rw [show optTruthy none = false from rfl]
  simp [List.append_assoc]

-- Two character lists differing at the first position are different.
theorem consNeOfHead (a b : Char) (l1 l2 : List Char) (h : a ≠ b) :
    a :: l1 ≠ b :: l2 := by
  intro he
  injection he with h1 _
  exact h h1

-- Two character lists differing at the second position are different.
theorem consNeOfSecond (a b c d : Char) (l1 l2 : List Char) (h : b ≠ d) :
    a :: b :: l1 ≠ c :: d :: l2 := by
  intro he
  injection he with _ h2
  injection h2 with h3 _
  exact h h3

-- Neither legendary clause can arise from the generation, type or ability
-- filter blocks (their clauses start differently).
theorem legendary_notin_baseFilters (g t a : Option (List Char))
    (x : List Char)
    (hx : x = legendaryTrueClause ∨ x = legendaryFalseClause) :
    x ∉ build_solr_filters g t a none := by
  intro hmem
  rw [build_solr_filters] at hmem
  rw [show (if optTruthy (none : Option (List Char)) = true then
      (if pyLower ((none : Option (List Char)).getD []) ∈ trueLikeValues then
        [legendaryTrueClause] else [legendaryFalseClause]) else []) = []
    from rfl, List.append_nil] at hmem
  rcases List.mem_append.mp hmem with hm | hm
  · rcases List.mem_append.mp hm with hm | hm
    · by_cases hg : optTruthy g = true
      · rw [if_pos hg, List.mem_singleton] at hm
        rcases hx with he | he <;> rw [he] at hm <;>
          exact absurd hm (consNeOfHead '(' 'g' _ _ (by decide))
      · rw [if_neg hg] at hm
        simp at hm
    · by_cases ht : optTruthy t = true
      · rw [if_pos ht, List.mem_singleton] at hm
        rcases hx with he | he <;> rw [he] at hm <;>
          exact absurd hm (consNeOfSecond '(' 'i' '(' 'p' _ _ (by decide))
      · rw [if_neg ht] at hm
        simp at hm
  · by_cases ha : optTruthy a = true
    · rw [if_pos ha, List.mem_singleton] at hm
      rcases hx with he | he <;> rw [he] at hm <;>
        exact absurd hm (consNeOfHead '(' 'a' _ _ (by decide))
    · rw [if_neg ha] at hm
      simp at hm

/-- Claim C3: the values `'true'`, `'1'` and `'yes'` compared
case-insensitively all append the identical legendary-or-mythical filter
clause; every other non-empty value appends the complementary
neither-legendary-nor-mythical clause; an absent or empty value adds no
legendary clause at all (neither clause occurs among the filters). -/
theorem legendaryFilter_clauses (g t a : Option (List Char)) :
    (∀ s : List Char, pyLower s ∈ trueLikeValues →
      build_solr_filters g t a (some s) =
        build_solr_filters g t a none ++ [legendaryTrueClause]) ∧
    (∀ s : List Char, s ≠ [] → pyLower s ∉ trueLikeValues →
      build_solr_filters g t a (some s) =
        build_solr_filters g t a none ++ [legendaryFalseClause]) ∧
    build_solr_filters g t a (some []) = build_solr_filters g t a none ∧
    (legendaryTrueClause ∉ build_solr_filters g t a none ∧
      legendaryFalseClause ∉ build_solr_filters g t a none) ∧
    build_solr_filters g t a (some ("true".toList)) =
      build_solr_filters g t a (some ("1".toList)) ∧
    build_solr_filters g t a (some ("1".toList)) =
      build_solr_filters g t a (some ("yes".toList)) ∧
    build_solr_filters g t a (some ("TRUE".toList)) =
      build_solr_filters g t a (some ("true".toList)) := by
  refine ⟨?_, ?_, ?_,
    ⟨legendary_notin_baseFilters g t a _ (Or.inl rfl),
     legendary_notin_baseFilters g t a _ (Or.inr rfl)⟩, ?_, ?_, ?_⟩
  · intro s hs
    have hne : s ≠ [] := by
      intro h0
      rw [h0] at hs
      exact absurd hs (by decide)
    rw [build_solr_filters_legPart g t a (some s)]
    simp only [Option.getD_some]
    rw [if_pos (by simp [optTruthy, hne]), if_pos hs]
  · intro s hne hs
    rw [build_solr_filters_legPart g t a (some s)]
    simp only [Option.getD_some]
    rw [if_pos (by simp [optTruthy, hne]), if_neg hs]
  · rw [build_solr_filters_legPart g t a (some [])]
    simp [optTruthy]
  · rw [build_solr_filters_legPart g t a (some ("true".toList)),
      build_solr_filters_legPart g t a (some ("1".toList))]
    refine congrArg (build_solr_filters g t a none ++ ·) (by decide)
  · rw [build_solr_filters_legPart g t a (some ("1".toList)),
      build_solr_filters_legPart g t a (some ("yes".toList))]
    refine congrArg (build_solr_filters g t a none ++ ·) (by decide)
  · rw [build_solr_filters_legPart g t a (some ("TRUE".toList)),
      build_solr_filters_legPart g t a (some ("true".toList))]
    refine congrArg (build_solr_filters g t a none ++ ·) (by decide)

/-- Witness for Claim C3 at concrete filter values. -/
theorem legendaryFilter_clauses_witness :
    build_solr_filters none none none (some ("TRUE".toList)) =
      build_solr_filters none none none none ++ [legendaryTrueClause] ∧
    build_solr_filters none none none (some ("false".toList)) =
      build_solr_filters none none none none ++ [legendaryFalseClause] :=
  ⟨(legendaryFilter_clauses none none none).1 ("TRUE".toList) (by decide),
   (legendaryFilter_clauses none none none).2.1 ("false".toList) (by decide)
     (by decide)⟩
